import Mathlib

/-!
Shallow embedding of the MCMC sampling engine of `src/app/simulator.tsx`.

JavaScript floating-point numbers are modelled as real numbers.  Every call
to the random source (`Math.random()` and the Box-Muller normal variate
`randn()`) is modelled as an explicit real-valued argument of the kernel,
and the unbounded random stream consumed by a bracket-shrinking loop is
modelled as a function from the remaining loop fuel to the drawn value.
Each `while (loop < cap)` loop of the source is modelled by structural
recursion on the remaining fuel, initialised with the source's cap, so the
caps appear literally in the step functions below.
-/

open scoped Classical

structure Point where
  x : ℝ
  y : ℝ

structure Sample where
  x : ℝ
  y : ℝ
  accepted : Bool

structure Gradient where
  dx : ℝ
  dy : ℝ

structure Params where
  stepSize : ℝ
  stepsPerFrame : ℤ
  hmcSteps : ℕ
  hmcEpsilon : ℝ

structure KResult where
  x : ℝ
  y : ℝ
  accepted : Bool
  path : Option (List Point)

inductive TargetType
  | gaussian
  | bimodal
  | donut
  | banana

/-- The constant `PI2 = Math.PI * 2` of the source. -/
noncomputable def PI2 : ℝ := Real.pi * 2

/-- The catalog of target log-densities (`LOG_PROBS` in the source). -/
noncomputable def LOG_PROBS : TargetType → ℝ → ℝ → ℝ
  | .gaussian => fun x y => (-0.5) * (x * x + y * y)
  | .bimodal => fun x y =>
      Real.log (Real.exp ((-((x + 1.5) ^ 2 + (y + 1.5) ^ 2)) * 2)
        + Real.exp ((-((x - 1.5) ^ 2 + (y - 1.5) ^ 2)) * 2) + 1e-9)
  | .donut => fun x y => (-2) * ((Real.sqrt (x * x + y * y) - 2.5) ^ 2)
  | .banana => fun x y => (-((1 - x) ^ 2 + 5 * (y - x * x) ^ 2)) / 10

/-- The catalog of supplied gradient functions (`GRADIENTS` in the source). -/
noncomputable def GRADIENTS : TargetType → ℝ → ℝ → Gradient
  | .gaussian => fun x y => ⟨-x, -y⟩
  | .bimodal => fun x y =>
      let e1 := Real.exp ((-((x + 1.5) ^ 2 + (y + 1.5) ^ 2)) * 2)
      let e2 := Real.exp ((-((x - 1.5) ^ 2 + (y - 1.5) ^ 2)) * 2)
      let s := e1 + e2 + 1e-9
      ⟨(e1 * (-4) * (x + 1.5) + e2 * (-4) * (x - 1.5)) / s,
       (e1 * (-4) * (y + 1.5) + e2 * (-4) * (y - 1.5)) / s⟩
  | .donut => fun x y =>
      let r := Real.sqrt (x * x + y * y) + 1e-9
      let term := (-4) * (r - 2.5)
      ⟨term * (x / r), term * (y / r)⟩
  | .banana => fun x y =>
      ⟨-((2 * (x - 1) + 2 * 5 * (y - x * x) * ((-2) * x)) / 10),
       -((2 * 5 * (y - x * x)) / 10)⟩

/-- Random-walk Metropolis step (`stepRWM`); `n1`, `n2` are the two normal
draws and `u` the uniform draw of the accept test. -/
noncomputable def stepRWM (current : Point) (lpFn : ℝ → ℝ → ℝ) (p : Params)
    (n1 n2 u : ℝ) : KResult :=
  let xNew := current.x + n1 * p.stepSize
  let yNew := current.y + n2 * p.stepSize
  let currentLp := lpFn current.x current.y
  let newLp := lpFn xNew yNew
  if Real.log u < newLp - currentLp then ⟨xNew, yNew, true, none⟩
  else ⟨current.x, current.y, false, none⟩

/-- The fixed proposal log-density of the independent MH kernel (the local
`logQ` closure of `stepMH`, with `sigma = 1.5` inlined). -/
noncomputable def logQ (x y : ℝ) : ℝ := ((-0.5) * (x * x + y * y)) / (1.5 * 1.5)

/-- Independent Metropolis-Hastings step (`stepMH`).  The `p : Params`
argument mirrors the closed-over parameter record, which this kernel never
reads. -/
noncomputable def stepMH (current : Point) (lpFn : ℝ → ℝ → ℝ) (p : Params)
    (n1 n2 u : ℝ) : KResult :=
  let xNew := n1 * 1.5
  let yNew := n2 * 1.5
  let currentLp := lpFn current.x current.y
  let newLp := lpFn xNew yNew
  if Real.log u < newLp + logQ current.x current.y - currentLp - logQ xNew yNew then
    ⟨xNew, yNew, true, none⟩
  else ⟨current.x, current.y, false, none⟩

/-- Left step-out loop of `stepSlice` (`while (loop < 100 && ...) L -= stepSize`). -/
noncomputable def sliceStepOutL (lpFn : ℝ → ℝ → ℝ) (cx cy dx dy th step : ℝ) :
    ℕ → ℝ → ℝ
  | 0, L => L
  | n + 1, L =>
      if lpFn (cx + L * dx) (cy + L * dy) > th then
        sliceStepOutL lpFn cx cy dx dy th step n (L - step)
      else L

/-- Right step-out loop of `stepSlice` (`while (loop < 100 && ...) R += stepSize`). -/
noncomputable def sliceStepOutR (lpFn : ℝ → ℝ → ℝ) (cx cy dx dy th step : ℝ) :
    ℕ → ℝ → ℝ
  | 0, R => R
  | n + 1, R =>
      if lpFn (cx + R * dx) (cy + R * dy) > th then
        sliceStepOutR lpFn cx cy dx dy th step n (R + step)
      else R

/-- Shrink-sample loop of `stepSlice`; `us` supplies the uniform draw of each
iteration.  Fuel 0 is the `loop = 100` exit returning the spread of
`current` (coordinates `cx`, `cy`) with `accepted = false` and no path. -/
noncomputable def sliceShrink (lpFn : ℝ → ℝ → ℝ) (cx cy dx dy th : ℝ)
    (us : ℕ → ℝ) : ℕ → ℝ → ℝ → KResult
  | 0, _, _ => ⟨cx, cy, false, none⟩
  | n + 1, L, R =>
      let dist := us (n + 1) * (R - L) + L
      let newX := cx + dist * dx
      let newY := cy + dist * dy
      if lpFn newX newY > th then
        ⟨newX, newY, true,
          some [⟨cx + L * dx, cy + L * dy⟩, ⟨cx + R * dx, cy + R * dy⟩]⟩
      else if dist < 0 then
        sliceShrink lpFn cx cy dx dy th us n dist R
      else
        sliceShrink lpFn cx cy dx dy th us n L dist

/-- Slice-sampling step (`stepSlice`).  `w` is the uniform draw entering the
threshold, `t` the uniform draw scaled to the direction angle, `r0` the
uniform draw positioning the initial bracket, `us` the shrink-loop stream. -/
noncomputable def stepSlice (current : Point) (lpFn : ℝ → ℝ → ℝ) (p : Params)
    (w t r0 : ℝ) (us : ℕ → ℝ) : KResult :=
  let currentLp := lpFn current.x current.y
  let th := currentLp + Real.log w
  let theta := t * PI2
  let dx := Real.cos theta
  let dy := Real.sin theta
  let L0 := -(r0 * p.stepSize)
  let R0 := L0 + p.stepSize
  let L1 := sliceStepOutL lpFn current.x current.y dx dy th p.stepSize 100 L0
  let R1 := sliceStepOutR lpFn current.x current.y dx dy th p.stepSize 100 R0
  sliceShrink lpFn current.x current.y dx dy th us 100 L1 R1

/-- Angle-shrinking loop of `stepElliptical`; each iteration evaluates the
elliptical proposal at `theta`, then shrinks the bracket toward the side
`theta` fell on and redraws.  Fuel 0 returns the spread of `current`. -/
noncomputable def ellipticalShrink (lpFn : ℝ → ℝ → ℝ) (cx cy nuX nuY th : ℝ)
    (us : ℕ → ℝ) : ℕ → ℝ → ℝ → ℝ → KResult
  | 0, _, _, _ => ⟨cx, cy, false, none⟩
  | n + 1, theta, thetaMin, thetaMax =>
      let newX := cx * Real.cos theta + nuX * Real.sin theta
      let newY := cy * Real.cos theta + nuY * Real.sin theta
      if lpFn newX newY > th then ⟨newX, newY, true, none⟩
      else
        let tMin := if theta < 0 then theta else thetaMin
        let tMax := if theta < 0 then thetaMax else theta
        ellipticalShrink lpFn cx cy nuX nuY th us n
          (us (n + 1) * (tMax - tMin) + tMin) tMin tMax

/-- Elliptical slice-sampling step (`stepElliptical`); `n1`, `n2` are the
auxiliary normal draws, `w` the threshold uniform, `t` the initial angle
uniform. -/
noncomputable def stepElliptical (current : Point) (lpFn : ℝ → ℝ → ℝ)
    (p : Params) (n1 n2 w t : ℝ) (us : ℕ → ℝ) : KResult :=
  let currentLp := lpFn current.x current.y
  let th := currentLp + Real.log w
  let theta := t * PI2
  ellipticalShrink lpFn current.x current.y n1 n2 th us 50 theta (theta - PI2) theta

/-- Left doubling step-out loop of `stepHitAndRun` (`while (loop < 20 && ...) L *= 2`). -/
noncomputable def harStepOutL (lpFn : ℝ → ℝ → ℝ) (cx cy dx dy th : ℝ) :
    ℕ → ℝ → ℝ
  | 0, L => L
  | n + 1, L =>
      if lpFn (cx + L * dx) (cy + L * dy) > th then
        harStepOutL lpFn cx cy dx dy th n (L * 2)
      else L

/-- Right doubling step-out loop of `stepHitAndRun`. -/
noncomputable def harStepOutR (lpFn : ℝ → ℝ → ℝ) (cx cy dx dy th : ℝ) :
    ℕ → ℝ → ℝ
  | 0, R => R
  | n + 1, R =>
      if lpFn (cx + R * dx) (cy + R * dy) > th then
        harStepOutR lpFn cx cy dx dy th n (R * 2)
      else R

/-- Shrink-sample loop of `stepHitAndRun` (cap 50, no path on success). -/
noncomputable def harShrink (lpFn : ℝ → ℝ → ℝ) (cx cy dx dy th : ℝ)
    (us : ℕ → ℝ) : ℕ → ℝ → ℝ → KResult
  | 0, _, _ => ⟨cx, cy, false, none⟩
  | n + 1, L, R =>
      let dist := us (n + 1) * (R - L) + L
      let newX := cx + dist * dx
      let newY := cy + dist * dy
      if lpFn newX newY > th then ⟨newX, newY, true, none⟩
      else if dist < 0 then
        harShrink lpFn cx cy dx dy th us n dist R
      else
        harShrink lpFn cx cy dx dy th us n L dist

/-- Hit-and-run step (`stepHitAndRun`). -/
noncomputable def stepHitAndRun (current : Point) (lpFn : ℝ → ℝ → ℝ)
    (p : Params) (w t : ℝ) (us : ℕ → ℝ) : KResult :=
  let theta := t * PI2
  let dx := Real.cos theta
  let dy := Real.sin theta
  let currentLp := lpFn current.x current.y
  let th := currentLp + Real.log w
  let L1 := harStepOutL lpFn current.x current.y dx dy th 20 (-1)
  let R1 := harStepOutR lpFn current.x current.y dx dy th 20 1
  harShrink lpFn current.x current.y dx dy th us 50 L1 R1

/-- State carried through the HMC leapfrog loop: position, momentum, the
recorded trajectory, and the most recently computed gradient (the source
keeps `grad` in scope across iterations and uses it after the loop). -/
structure HState where
  x : ℝ
  y : ℝ
  px : ℝ
  py : ℝ
  traj : List Point
  gdx : ℝ
  gdy : ℝ

/-- The `for (i = 0; i < hmcSteps; i++)` leapfrog loop of `stepHMC`,
recursing on the remaining iteration count; the source's `i !== hmcSteps-1`
test corresponds to the remaining count not being 1. -/
noncomputable def hmcLoop (gradFn : ℝ → ℝ → Gradient) (eps : ℝ) :
    ℕ → HState → HState
  | 0, s => s
  | n + 1, s =>
      let x := s.x + eps * s.px
      let y := s.y + eps * s.py
      let g := gradFn x y
      if n = 0 then
        hmcLoop gradFn eps n ⟨x, y, s.px, s.py, s.traj ++ [⟨x, y⟩], g.dx, g.dy⟩
      else
        hmcLoop gradFn eps n
          ⟨x, y, s.px + eps * g.dx, s.py + eps * g.dy, s.traj ++ [⟨x, y⟩], g.dx, g.dy⟩

/-- Hamiltonian Monte Carlo step (`stepHMC`); `p1`, `p2` are the drawn
momentum components and `u` the uniform draw of the accept test. -/
noncomputable def stepHMC (current : Point) (lpFn : ℝ → ℝ → ℝ)
    (gradFn : ℝ → ℝ → Gradient) (p : Params) (p1 p2 u : ℝ) : KResult :=
  let eps := p.hmcEpsilon
  let g0 := gradFn current.x current.y
  let px0 := p1 + 0.5 * eps * g0.dx
  let py0 := p2 + 0.5 * eps * g0.dy
  let s := hmcLoop gradFn eps p.hmcSteps
    ⟨current.x, current.y, px0, py0, [⟨current.x, current.y⟩], g0.dx, g0.dy⟩
  let pxF := s.px + 0.5 * eps * s.gdx
  let pyF := s.py + 0.5 * eps * s.gdy
  let currentH := -(lpFn current.x current.y) + 0.5 * (p1 ^ 2 + p2 ^ 2)
  let proposedH := -(lpFn s.x s.y) + 0.5 * (pxF ^ 2 + pyF ^ 2)
  if Real.log u < currentH - proposedH then ⟨s.x, s.y, true, some s.traj⟩
  else ⟨current.x, current.y, false, some s.traj⟩

/-- Position-momentum pair used to state the leapfrog reference recursion. -/
structure LFState where
  x : ℝ
  y : ℝ
  px : ℝ
  py : ℝ

/-- One full leapfrog iteration as the specification describes it: a full
position update followed by a full momentum update with the gradient at the
new position.  Used only to state what the loop of `stepHMC` computes. -/
noncomputable def leapfrogFull (gradFn : ℝ → ℝ → Gradient) (eps : ℝ)
    (s : LFState) : LFState :=
  let x := s.x + eps * s.px
  let y := s.y + eps * s.py
  let g := gradFn x y
  ⟨x, y, s.px + eps * g.dx, s.py + eps * g.dy⟩

/-- The leapfrog start state: the current position with the drawn momentum
after the initial half-step momentum update at the start gradient. -/
noncomputable def hmcInit (current : Point) (gradFn : ℝ → ℝ → Gradient)
    (eps p1 p2 : ℝ) : LFState :=
  ⟨current.x, current.y,
   p1 + 0.5 * eps * (gradFn current.x current.y).dx,
   p2 + 0.5 * eps * (gradFn current.x current.y).dy⟩

/-- The reference state after `i` full leapfrog iterations from the start
state; its position is the position after `i` leapfrog position updates. -/
noncomputable def hmcRefPoint (current : Point) (gradFn : ℝ → ℝ → Gradient)
    (eps p1 p2 : ℝ) (i : ℕ) : LFState :=
  (leapfrogFull gradFn eps)^[i] (hmcInit current gradFn eps p1 p2)

/-- The position-momentum quadruple of a loop state, used to relate the
loop of `stepHMC` to the reference recursion. -/
noncomputable def quadOf (s : HState) : LFState := ⟨s.x, s.y, s.px, s.py⟩

/-- The chain state mutated by the animation loop (`stateRef.current`). -/
structure StateRef where
  x : ℝ
  y : ℝ
  samples : List Sample
  currentPath : Option (List Point)

/-- The history push of the stepping loop: append the new sample, then
evict the oldest entry when the length exceeds 2000 (`push` then `shift`). -/
def pushSample (samples : List Sample) (s : Sample) : List Sample :=
  let l := samples ++ [s]
  if 2000 < l.length then l.tail else l

/-- One iteration of the per-frame stepping loop: run the kernel at the
current position, move to the returned point, replace `currentPath` with
the returned path, and push the emitted sample into the bounded history. -/
def frameBody (step : Point → KResult) (s : StateRef) : StateRef :=
  let r := step ⟨s.x, s.y⟩
  ⟨r.x, r.y, pushSample s.samples ⟨r.x, r.y, r.accepted⟩, r.path⟩

/-- The `for (k = 0; k < stepsPerFrame; k++)` stepping loop, recursing on
the remaining iteration count; `step` is the dispatched kernel, indexed by
the remaining count to model fresh randomness at each iteration. -/
def advanceLoop (step : ℕ → Point → KResult) : ℕ → StateRef → StateRef
  | 0, s => s
  | n + 1, s => advanceLoop step n (frameBody (step (n + 1)) s)

/-- One animation frame's stepping: the loop runs `max 0 stepsPerFrame`
iterations, as the counting `for` loop does for an integer bound. -/
def advanceFrame (step : ℕ → Point → KResult) (stepsPerFrame : ℤ)
    (s : StateRef) : StateRef :=
  advanceLoop step stepsPerFrame.toNat s

/-- The samples emitted by `n` iterations of the stepping loop, in step
order (first emitted first). -/
def emittedSamples (step : ℕ → Point → KResult) : ℕ → StateRef → List Sample
  | 0, _ => []
  | n + 1, s =>
      let r := step (n + 1) ⟨s.x, s.y⟩
      ⟨r.x, r.y, r.accepted⟩ :: emittedSamples step n (frameBody (step (n + 1)) s)

/-! ## Helper lemmas -/

theorem rwm_accepted_iff (current : Point) (lpFn : ℝ → ℝ → ℝ) (p : Params)
    (n1 n2 u : ℝ) :
    (stepRWM current lpFn p n1 n2 u).accepted = true ↔
      Real.log u < lpFn (current.x + n1 * p.stepSize) (current.y + n2 * p.stepSize)
        - lpFn current.x current.y := by
  by_cases h : Real.log u <
      lpFn (current.x + n1 * p.stepSize) (current.y + n2 * p.stepSize)
        - lpFn current.x current.y
  · simp [stepRWM, h]
  · simp [stepRWM, h]

theorem logAcceptSet_eq (d : ℝ) :
    {v ∈ Set.Ioo (0:ℝ) 1 | Real.log v < d}
      = Set.Ioo (0:ℝ) (min 1 (Real.exp d)) := by
  ext v
  simp only [Set.mem_sep_iff, Set.mem_Ioo, lt_min_iff]
  constructor
  · rintro ⟨⟨h0, h1⟩, hlog⟩
    exact ⟨h0, h1, (Real.log_lt_iff_lt_exp h0).mp hlog⟩
  · rintro ⟨h0, h1, h2⟩
    exact ⟨⟨h0, h1⟩, (Real.log_lt_iff_lt_exp h0).mpr h2⟩

/-! ## Claim theorems -/

/-- C1: the RWM kernel proposes `(x + n1·σ, y + n2·σ)` and accepts exactly
when `log u < lpFn(x',y') − lpFn(x,y)`, returning the current point with
`accepted = false` on rejection; over a uniform(0,1) accept draw, the
acceptance set has measure `min(1, exp(lpFn(x',y') − lpFn(x,y)))`,
a function of the log-density difference only. -/
theorem rwm_step_correct (current : Point) (lpFn : ℝ → ℝ → ℝ) (p : Params)
    (n1 n2 u : ℝ) (hs : 0 < p.stepSize) :
    (stepRWM current lpFn p n1 n2 u =
      if Real.log u < lpFn (current.x + n1 * p.stepSize) (current.y + n2 * p.stepSize)
          - lpFn current.x current.y then
        ⟨current.x + n1 * p.stepSize, current.y + n2 * p.stepSize, true, none⟩
      else ⟨current.x, current.y, false, none⟩)
    ∧ MeasureTheory.volume
        {v ∈ Set.Ioo (0:ℝ) 1 | (stepRWM current lpFn p n1 n2 v).accepted = true}
      = ENNReal.ofReal (min 1 (Real.exp
          (lpFn (current.x + n1 * p.stepSize) (current.y + n2 * p.stepSize)
            - lpFn current.x current.y))) := by
  refine ⟨rfl, ?_⟩
  have hset : {v ∈ Set.Ioo (0:ℝ) 1 | (stepRWM current lpFn p n1 n2 v).accepted = true}
      = {v ∈ Set.Ioo (0:ℝ) 1 | Real.log v <
          lpFn (current.x + n1 * p.stepSize) (current.y + n2 * p.stepSize)
            - lpFn current.x current.y} := by
    ext v
    simp only [Set.mem_sep_iff, rwm_accepted_iff]
  rw [hset, logAcceptSet_eq, Real.volume_Ioo, sub_zero]

/-- Witness for `rwm_step_correct` at a concrete input. -/
theorem rwm_step_correct_witness :
    (0:ℝ) < (1:ℝ) ∧
    ((stepRWM ⟨0, 0⟩ (fun _ _ => 0) ⟨1, 1, 1, 1⟩ 0 0 1 =
        if Real.log 1 < (0:ℝ) - 0 then ⟨0 + 0 * 1, 0 + 0 * 1, true, none⟩
        else ⟨0, 0, false, none⟩)
      ∧ MeasureTheory.volume
          {v ∈ Set.Ioo (0:ℝ) 1 |
            (stepRWM ⟨0, 0⟩ (fun _ _ => 0) ⟨1, 1, 1, 1⟩ 0 0 v).accepted = true}
        = ENNReal.ofReal (min 1 (Real.exp ((0:ℝ) - 0)))) :=
  ⟨one_pos, rwm_step_correct ⟨0, 0⟩ (fun _ _ => 0) ⟨1, 1, 1, 1⟩ 0 0 1 one_pos⟩

/-- C2: the independent MH kernel proposes `(1.5·n1, 1.5·n2)` independently
of the current state and of the parameter record, accepts exactly when
`log u < [lp(x') + logq(current)] − [lp(current) + logq(x')]`, returns the
current point with `accepted = false` on rejection, and the acceptance
ratio is unchanged by shifting `logq` by any normalising constant. -/
theorem mh_step_correct (current : Point) (lpFn : ℝ → ℝ → ℝ) (p : Params)
    (n1 n2 u : ℝ) :
    (∀ q : Params, stepMH current lpFn q n1 n2 u = stepMH current lpFn p n1 n2 u)
    ∧ (stepMH current lpFn p n1 n2 u =
        if Real.log u < (lpFn (n1 * 1.5) (n2 * 1.5) + logQ current.x current.y)
            - (lpFn current.x current.y + logQ (n1 * 1.5) (n2 * 1.5)) then
          ⟨n1 * 1.5, n2 * 1.5, true, none⟩
        else ⟨current.x, current.y, false, none⟩)
    ∧ (∀ c : ℝ,
        (lpFn (n1 * 1.5) (n2 * 1.5) + (logQ current.x current.y - c))
          - (lpFn current.x current.y + (logQ (n1 * 1.5) (n2 * 1.5) - c))
        = (lpFn (n1 * 1.5) (n2 * 1.5) + logQ current.x current.y)
          - (lpFn current.x current.y + logQ (n1 * 1.5) (n2 * 1.5))) := by
  refine ⟨fun q => rfl, ?_, fun c => by ring⟩
  have h : (lpFn (n1 * 1.5) (n2 * 1.5) + logQ current.x current.y)
      - (lpFn current.x current.y + logQ (n1 * 1.5) (n2 * 1.5))
      = lpFn (n1 * 1.5) (n2 * 1.5) + logQ current.x current.y
        - lpFn current.x current.y - logQ (n1 * 1.5) (n2 * 1.5) := by ring
  simp only [stepMH, h]

/-- C8 (amended): the catalog log-densities equal their closed forms, with
the bimodal one including the `1e-9` guard inside the logarithm. -/
theorem log_probs_closed_forms (x y : ℝ) :
    LOG_PROBS TargetType.gaussian x y = -0.5 * (x ^ 2 + y ^ 2)
    ∧ LOG_PROBS TargetType.donut x y = -2 * (Real.sqrt (x ^ 2 + y ^ 2) - 2.5) ^ 2
    ∧ LOG_PROBS TargetType.banana x y = -((1 - x) ^ 2 + 5 * (y - x ^ 2) ^ 2) / 10
    ∧ LOG_PROBS TargetType.bimodal x y =
        Real.log (Real.exp (-((x + 1.5) ^ 2 + (y + 1.5) ^ 2) * 2)
          + Real.exp (-((x - 1.5) ^ 2 + (y - 1.5) ^ 2) * 2) + 1e-9) := by
  refine ⟨by simp only [LOG_PROBS]; ring, ?_, by simp only [LOG_PROBS]; ring, rfl⟩
  simp only [LOG_PROBS]
  rw [show x * x + y * y = x ^ 2 + y ^ 2 by ring]

/-- C8 counterexample: at the origin, the bimodal log-density differs from
the log of the bare sum of the two component densities, because of the
`1e-9` guard added inside the logarithm. -/
theorem bimodal_logp_cex :
    LOG_PROBS TargetType.bimodal 0 0 ≠
      Real.log (Real.exp ((-(((0:ℝ) + 1.5) ^ 2 + ((0:ℝ) + 1.5) ^ 2)) * 2)
        + Real.exp ((-(((0:ℝ) - 1.5) ^ 2 + ((0:ℝ) - 1.5) ^ 2)) * 2)) := by
  simp only [LOG_PROBS]
  have hs : (0:ℝ) < Real.exp ((-(((0:ℝ) + 1.5) ^ 2 + ((0:ℝ) + 1.5) ^ 2)) * 2)
      + Real.exp ((-(((0:ℝ) - 1.5) ^ 2 + ((0:ℝ) - 1.5) ^ 2)) * 2) := by positivity
  exact (Real.log_lt_log hs (lt_add_of_pos_right _ (by norm_num))).ne'

theorem sliceStepOutL_succ (lpFn : ℝ → ℝ → ℝ) (cx cy dx dy th step : ℝ)
    (n : ℕ) (L : ℝ) :
    sliceStepOutL lpFn cx cy dx dy th step (n + 1) L =
      if lpFn (cx + L * dx) (cy + L * dy) > th then
        sliceStepOutL lpFn cx cy dx dy th step n (L - step)
      else L := rfl

theorem sliceShrink_sound (lpFn : ℝ → ℝ → ℝ) (cx cy dx dy th : ℝ) (us : ℕ → ℝ) :
    ∀ (fuel : ℕ) (L R : ℝ),
      ((sliceShrink lpFn cx cy dx dy th us fuel L R).accepted = true
        ∧ lpFn (sliceShrink lpFn cx cy dx dy th us fuel L R).x
            (sliceShrink lpFn cx cy dx dy th us fuel L R).y > th)
      ∨ sliceShrink lpFn cx cy dx dy th us fuel L R = ⟨cx, cy, false, none⟩ := by
  intro fuel
  induction fuel with
  | zero => exact fun L R => Or.inr rfl
  | succ n ih =>
      intro L R
      by_cases h : lpFn (cx + (us (n + 1) * (R - L) + L) * dx)
          (cy + (us (n + 1) * (R - L) + L) * dy) > th
      · simp only [sliceShrink]
        rw [if_pos h]
        exact Or.inl ⟨rfl, h⟩
      · simp only [sliceShrink]
        rw [if_neg h]
        by_cases hd : us (n + 1) * (R - L) + L < 0
        · rw [if_pos hd]; exact ih _ R
        · rw [if_neg hd]; exact ih L _

theorem ellipticalShrink_sound (lpFn : ℝ → ℝ → ℝ) (cx cy nuX nuY th : ℝ)
    (us : ℕ → ℝ) :
    ∀ (fuel : ℕ) (theta thetaMin thetaMax : ℝ),
      ((ellipticalShrink lpFn cx cy nuX nuY th us fuel theta thetaMin thetaMax).accepted = true
        ∧ lpFn (ellipticalShrink lpFn cx cy nuX nuY th us fuel theta thetaMin thetaMax).x
            (ellipticalShrink lpFn cx cy nuX nuY th us fuel theta thetaMin thetaMax).y > th)
      ∨ ellipticalShrink lpFn cx cy nuX nuY th us fuel theta thetaMin thetaMax
          = ⟨cx, cy, false, none⟩ := by
  intro fuel
  induction fuel with
  | zero => exact fun theta thetaMin thetaMax => Or.inr rfl
  | succ n ih =>
      intro theta thetaMin thetaMax
      by_cases h : lpFn (cx * Real.cos theta + nuX * Real.sin theta)
          (cy * Real.cos theta + nuY * Real.sin theta) > th
      · simp only [ellipticalShrink]
        rw [if_pos h]
        exact Or.inl ⟨rfl, h⟩
      · simp only [ellipticalShrink]
        rw [if_neg h]
        exact ih _ _ _

theorem harShrink_sound (lpFn : ℝ → ℝ → ℝ) (cx cy dx dy th : ℝ) (us : ℕ → ℝ) :
    ∀ (fuel : ℕ) (L R : ℝ),
      ((harShrink lpFn cx cy dx dy th us fuel L R).accepted = true
        ∧ lpFn (harShrink lpFn cx cy dx dy th us fuel L R).x
            (harShrink lpFn cx cy dx dy th us fuel L R).y > th)
      ∨ harShrink lpFn cx cy dx dy th us fuel L R = ⟨cx, cy, false, none⟩ := by
  intro fuel
  induction fuel with
  | zero => exact fun L R => Or.inr rfl
  | succ n ih =>
      intro L R
      by_cases h : lpFn (cx + (us (n + 1) * (R - L) + L) * dx)
          (cy + (us (n + 1) * (R - L) + L) * dy) > th
      · simp only [harShrink]
        rw [if_pos h]
        exact Or.inl ⟨rfl, h⟩
      · simp only [harShrink]
        rw [if_neg h]
        by_cases hd : us (n + 1) * (R - L) + L < 0
        · rw [if_pos hd]; exact ih _ R
        · rw [if_neg hd]; exact ih L _

theorem sliceShrink_const_reject (lpFn : ℝ → ℝ → ℝ) (cx cy dx dy th : ℝ) :
    ∀ (fuel : ℕ) (L R : ℝ), ¬ lpFn (cx + L * dx) (cy + L * dy) > th →
      sliceShrink lpFn cx cy dx dy th (fun _ => 0) fuel L R = ⟨cx, cy, false, none⟩ := by
  intro fuel
  induction fuel with
  | zero => exact fun L R _ => rfl
  | succ n ih =>
      intro L R hL
      simp only [sliceShrink, zero_mul, zero_add]
      rw [if_neg hL]
      by_cases hneg : L < 0
      · rw [if_pos hneg]; exact ih L R hL
      · rw [if_neg hneg]; exact ih L L hL

theorem sliceExhaustGaussian :
    stepSlice ⟨0, 0⟩ (LOG_PROBS TargetType.gaussian) ⟨1, 1, 1, 1⟩
      (Real.exp (-(1/2 : ℝ))) 0 0 (fun _ => 0) = ⟨0, 0, false, none⟩ := by
  simp only [stepSlice]
  rw [zero_mul, Real.cos_zero, Real.sin_zero]
  rw [show LOG_PROBS TargetType.gaussian 0 0 + Real.log (Real.exp (-(1/2 : ℝ)))
      = -(1/2 : ℝ) by rw [Real.log_exp]; norm_num [LOG_PROBS]]
  have hL1 : sliceStepOutL (LOG_PROBS TargetType.gaussian) 0 0 1 0 (-(1/2 : ℝ)) 1
      100 (-(0 * 1)) = -(0 * 1) - 1 := by
    rw [show (100:ℕ) = 99 + 1 from rfl, sliceStepOutL_succ,
      if_pos (show LOG_PROBS TargetType.gaussian (0 + -(0 * 1) * 1) (0 + -(0 * 1) * 0)
        > -(1/2 : ℝ) by norm_num [LOG_PROBS]),
      show (99:ℕ) = 98 + 1 from rfl, sliceStepOutL_succ,
      if_neg (show ¬ LOG_PROBS TargetType.gaussian (0 + (-(0 * 1) - 1) * 1)
        (0 + (-(0 * 1) - 1) * 0) > -(1/2 : ℝ) by norm_num [LOG_PROBS])]
  rw [hL1]
  exact sliceShrink_const_reject (LOG_PROBS TargetType.gaussian) 0 0 1 0 (-(1/2 : ℝ))
    100 (-(0 * 1) - 1) _ (by norm_num [LOG_PROBS])

/-- C4 counterexample: a concrete slice-sampling step on the gaussian
catalog target (current point at the mode, threshold draw `exp(-1/2)`,
direction and bracket draws 0, shrink stream constantly 0) exhausts the
shrink cap and returns `accepted = false`, refuting the claim that every
slice-family result reports acceptance. -/
theorem slice_family_always_accept_cex :
    (stepSlice ⟨0, 0⟩ (LOG_PROBS TargetType.gaussian) ⟨1, 1, 1, 1⟩
      (Real.exp (-(1/2 : ℝ))) 0 0 (fun _ => 0)).accepted = false := by
  rw [sliceExhaustGaussian]

/-- C4 (amended): every slice-family kernel result either reports
`accepted = true` with a point whose log-density exceeds the slice
threshold `logp(current) + log w`, or — when the shrink cap is exhausted —
is the unchanged current point with `accepted = false`. -/
theorem slice_family_accept_characterization :
    (∀ (current : Point) (lpFn : ℝ → ℝ → ℝ) (p : Params) (w t r0 : ℝ) (us : ℕ → ℝ),
      ((stepSlice current lpFn p w t r0 us).accepted = true
        ∧ lpFn (stepSlice current lpFn p w t r0 us).x (stepSlice current lpFn p w t r0 us).y
            > lpFn current.x current.y + Real.log w)
      ∨ stepSlice current lpFn p w t r0 us = ⟨current.x, current.y, false, none⟩)
    ∧ (∀ (current : Point) (lpFn : ℝ → ℝ → ℝ) (p : Params) (n1 n2 w t : ℝ) (us : ℕ → ℝ),
      ((stepElliptical current lpFn p n1 n2 w t us).accepted = true
        ∧ lpFn (stepElliptical current lpFn p n1 n2 w t us).x
            (stepElliptical current lpFn p n1 n2 w t us).y
            > lpFn current.x current.y + Real.log w)
      ∨ stepElliptical current lpFn p n1 n2 w t us = ⟨current.x, current.y, false, none⟩)
    ∧ (∀ (current : Point) (lpFn : ℝ → ℝ → ℝ) (p : Params) (w t : ℝ) (us : ℕ → ℝ),
      ((stepHitAndRun current lpFn p w t us).accepted = true
        ∧ lpFn (stepHitAndRun current lpFn p w t us).x (stepHitAndRun current lpFn p w t us).y
            > lpFn current.x current.y + Real.log w)
      ∨ stepHitAndRun current lpFn p w t us = ⟨current.x, current.y, false, none⟩) := by
  refine ⟨fun current lpFn p w t r0 us => ?_,
    fun current lpFn p n1 n2 w t us => ?_, fun current lpFn p w t us => ?_⟩
  · exact sliceShrink_sound lpFn current.x current.y (Real.cos (t * PI2))
      (Real.sin (t * PI2)) (lpFn current.x current.y + Real.log w) us 100 _ _
  · exact ellipticalShrink_sound lpFn current.x current.y n1 n2
      (lpFn current.x current.y + Real.log w) us 50 _ _ _
  · exact harShrink_sound lpFn current.x current.y (Real.cos (t * PI2))
      (Real.sin (t * PI2)) (lpFn current.x current.y + Real.log w) us 50 _ _

/-- C5: the loop caps (slice step-out 100 per side, slice shrink 100,
elliptical shrink 50, hit-and-run step-out 20 per side, hit-and-run shrink
50) are the fuels the step functions pass to their loops; a shrink loop
that runs out of fuel returns the unchanged current coordinates with
`accepted = false` as an ordinary result value, and consequently every
slice-family step either accepts or returns the unmoved rejected state. -/
theorem loop_caps_reject_unmoved :
    (∀ (lpFn : ℝ → ℝ → ℝ) (cx cy dx dy th : ℝ) (us : ℕ → ℝ) (L R : ℝ),
      sliceShrink lpFn cx cy dx dy th us 0 L R = ⟨cx, cy, false, none⟩)
    ∧ (∀ (lpFn : ℝ → ℝ → ℝ) (cx cy nuX nuY th : ℝ) (us : ℕ → ℝ) (a b c : ℝ),
      ellipticalShrink lpFn cx cy nuX nuY th us 0 a b c = ⟨cx, cy, false, none⟩)
    ∧ (∀ (lpFn : ℝ → ℝ → ℝ) (cx cy dx dy th : ℝ) (us : ℕ → ℝ) (L R : ℝ),
      harShrink lpFn cx cy dx dy th us 0 L R = ⟨cx, cy, false, none⟩)
    ∧ (∀ (current : Point) (lpFn : ℝ → ℝ → ℝ) (p : Params) (w t r0 : ℝ) (us : ℕ → ℝ),
      stepSlice current lpFn p w t r0 us =
        sliceShrink lpFn current.x current.y (Real.cos (t * PI2)) (Real.sin (t * PI2))
          (lpFn current.x current.y + Real.log w) us 100
          (sliceStepOutL lpFn current.x current.y (Real.cos (t * PI2)) (Real.sin (t * PI2))
            (lpFn current.x current.y + Real.log w) p.stepSize 100 (-(r0 * p.stepSize)))
          (sliceStepOutR lpFn current.x current.y (Real.cos (t * PI2)) (Real.sin (t * PI2))
            (lpFn current.x current.y + Real.log w) p.stepSize 100
            (-(r0 * p.stepSize) + p.stepSize)))
    ∧ (∀ (current : Point) (lpFn : ℝ → ℝ → ℝ) (p : Params) (n1 n2 w t : ℝ) (us : ℕ → ℝ),
      stepElliptical current lpFn p n1 n2 w t us =
        ellipticalShrink lpFn current.x current.y n1 n2
          (lpFn current.x current.y + Real.log w) us 50 (t * PI2) (t * PI2 - PI2) (t * PI2))
    ∧ (∀ (current : Point) (lpFn : ℝ → ℝ → ℝ) (p : Params) (w t : ℝ) (us : ℕ → ℝ),
      stepHitAndRun current lpFn p w t us =
        harShrink lpFn current.x current.y (Real.cos (t * PI2)) (Real.sin (t * PI2))
          (lpFn current.x current.y + Real.log w) us 50
          (harStepOutL lpFn current.x current.y (Real.cos (t * PI2)) (Real.sin (t * PI2))
            (lpFn current.x current.y + Real.log w) 20 (-1))
          (harStepOutR lpFn current.x current.y (Real.cos (t * PI2)) (Real.sin (t * PI2))
            (lpFn current.x current.y + Real.log w) 20 1))
    ∧ (∀ (current : Point) (lpFn : ℝ → ℝ → ℝ) (p : Params) (w t r0 : ℝ) (us : ℕ → ℝ),
      (stepSlice current lpFn p w t r0 us).accepted = true
        ∨ stepSlice current lpFn p w t r0 us = ⟨current.x, current.y, false, none⟩)
    ∧ (∀ (current : Point) (lpFn : ℝ → ℝ → ℝ) (p : Params) (n1 n2 w t : ℝ) (us : ℕ → ℝ),
      (stepElliptical current lpFn p n1 n2 w t us).accepted = true
        ∨ stepElliptical current lpFn p n1 n2 w t us = ⟨current.x, current.y, false, none⟩)
    ∧ (∀ (current : Point) (lpFn : ℝ → ℝ → ℝ) (p : Params) (w t : ℝ) (us : ℕ → ℝ),
      (stepHitAndRun current lpFn p w t us).accepted = true
        ∨ stepHitAndRun current lpFn p w t us = ⟨current.x, current.y, false, none⟩) := by
  refine ⟨fun lpFn cx cy dx dy th us L R => rfl,
    fun lpFn cx cy nuX nuY th us a b c => rfl,
    fun lpFn cx cy dx dy th us L R => rfl,
    fun current lpFn p w t r0 us => rfl,
    fun current lpFn p n1 n2 w t us => rfl,
    fun current lpFn p w t us => rfl,
    fun current lpFn p w t r0 us => ?_,
    fun current lpFn p n1 n2 w t us => ?_,
    fun current lpFn p w t us => ?_⟩
  · exact (sliceShrink_sound lpFn current.x current.y (Real.cos (t * PI2))
      (Real.sin (t * PI2)) (lpFn current.x current.y + Real.log w) us 100 _ _).imp_left
      And.left
  · exact (ellipticalShrink_sound lpFn current.x current.y n1 n2
      (lpFn current.x current.y + Real.log w) us 50 _ _ _).imp_left And.left
  · exact (harShrink_sound lpFn current.x current.y (Real.cos (t * PI2))
      (Real.sin (t * PI2)) (lpFn current.x current.y + Real.log w) us 50 _ _).imp_left
      And.left

/-- C6 (amended): when the slice-sampling shrink cap is exhausted (the only
way a slice step reports `accepted = false`), the step returns exactly the
unchanged current coordinates with `accepted = false` and no path; the
bracket endpoints are reported as `path` only on acceptance. -/
theorem slice_exhaust_returns_current (current : Point) (lpFn : ℝ → ℝ → ℝ)
    (p : Params) (w t r0 : ℝ) (us : ℕ → ℝ)
    (h : (stepSlice current lpFn p w t r0 us).accepted = false) :
    stepSlice current lpFn p w t r0 us = ⟨current.x, current.y, false, none⟩ := by
  rcases sliceShrink_sound lpFn current.x current.y (Real.cos (t * PI2))
      (Real.sin (t * PI2)) (lpFn current.x current.y + Real.log w) us 100
      (sliceStepOutL lpFn current.x current.y (Real.cos (t * PI2)) (Real.sin (t * PI2))
        (lpFn current.x current.y + Real.log w) p.stepSize 100 (-(r0 * p.stepSize)))
      (sliceStepOutR lpFn current.x current.y (Real.cos (t * PI2)) (Real.sin (t * PI2))
        (lpFn current.x current.y + Real.log w) p.stepSize 100
        (-(r0 * p.stepSize) + p.stepSize)) with h1 | h2
  · exact absurd (h.symm.trans h1.1) (by simp)
  · exact h2

/-- Witness for `slice_exhaust_returns_current` at the concrete exhausting
input. -/
theorem slice_exhaust_returns_current_witness :
    (stepSlice ⟨0, 0⟩ (LOG_PROBS TargetType.gaussian) ⟨1, 1, 1, 1⟩
        (Real.exp (-(1/2 : ℝ))) 0 0 (fun _ => 0)).accepted = false
    ∧ stepSlice ⟨0, 0⟩ (LOG_PROBS TargetType.gaussian) ⟨1, 1, 1, 1⟩
        (Real.exp (-(1/2 : ℝ))) 0 0 (fun _ => 0) = ⟨0, 0, false, none⟩ :=
  ⟨congrArg KResult.accepted sliceExhaustGaussian,
   slice_exhaust_returns_current ⟨0, 0⟩ (LOG_PROBS TargetType.gaussian) ⟨1, 1, 1, 1⟩
     (Real.exp (-(1/2 : ℝ))) 0 0 (fun _ => 0)
     (congrArg KResult.accepted sliceExhaustGaussian)⟩

/-- C6 counterexample: at the concrete exhausting input the slice step
rejects yet reports no path at all (`path = none`), contradicting the
claim that the final bracket endpoints are reported as `path` on
exhaustion. -/
theorem slice_exhaust_path_cex :
    (stepSlice ⟨0, 0⟩ (LOG_PROBS TargetType.gaussian) ⟨1, 1, 1, 1⟩
        (Real.exp (-(1/2 : ℝ))) 0 0 (fun _ => 0)).accepted = false
    ∧ (stepSlice ⟨0, 0⟩ (LOG_PROBS TargetType.gaussian) ⟨1, 1, 1, 1⟩
        (Real.exp (-(1/2 : ℝ))) 0 0 (fun _ => 0)).path = none := by
  rw [sliceExhaustGaussian]
  exact ⟨rfl, rfl⟩

theorem frameBody_samples (f : Point → KResult) (s : StateRef) :
    (frameBody f s).samples = pushSample s.samples
      ⟨(f ⟨s.x, s.y⟩).x, (f ⟨s.x, s.y⟩).y, (f ⟨s.x, s.y⟩).accepted⟩ := rfl

theorem pushSample_eq_drop (h : List Sample) (a : Sample) (hlen : h.length ≤ 2000) :
    pushSample h a = (h ++ [a]).drop (h.length + 1 - 2000) := by
  unfold pushSample
  by_cases hc : 2000 < (h ++ [a]).length
  · rw [if_pos hc]
    have h2000 : h.length = 2000 := by
      simp only [List.length_append, List.length_singleton] at hc
      omega
    rw [h2000, show (2000 + 1 - 2000 : ℕ) = 1 from rfl, List.drop_one]
  · rw [if_neg hc]
    have h0 : h.length + 1 - 2000 = 0 := by
      simp only [List.length_append, List.length_singleton] at hc
      omega
    rw [h0, List.drop_zero]

theorem pushSample_length_le (h : List Sample) (a : Sample)
    (hlen : h.length ≤ 2000) : (pushSample h a).length ≤ 2000 := by
  rw [pushSample_eq_drop h a hlen, List.length_drop]
  simp only [List.length_append, List.length_singleton]
  omega

theorem pushSample_getLast (h : List Sample) (a : Sample) :
    (pushSample h a).getLast? = some a := by
  unfold pushSample
  by_cases hc : 2000 < (h ++ [a]).length
  · rw [if_pos hc]
    cases h with
    | nil => simp at hc
    | cons b l =>
        simp only [List.cons_append, List.tail_cons]
        simp [List.getLast?_append]
  · rw [if_neg hc]
    simp [List.getLast?_append]

theorem emittedSamples_length (step : ℕ → Point → KResult) :
    ∀ (n : ℕ) (s : StateRef), (emittedSamples step n s).length = n := by
  intro n
  induction n with
  | zero => intro s; rfl
  | succ n ih => intro s; simp only [emittedSamples, List.length_cons, ih]

theorem advanceLoop_samples (step : ℕ → Point → KResult) :
    ∀ (n : ℕ) (s : StateRef), s.samples.length ≤ 2000 →
      (advanceLoop step n s).samples
        = (s.samples ++ emittedSamples step n s).drop (s.samples.length + n - 2000) := by
  intro n
  induction n with
  | zero =>
      intro s hs
      simp only [advanceLoop, emittedSamples, List.append_nil]
      rw [show s.samples.length + 0 - 2000 = 0 by omega, List.drop_zero]
  | succ n ih =>
      intro s hs
      have hb : (frameBody (step (n + 1)) s).samples.length ≤ 2000 := by
        rw [frameBody_samples]
        exact pushSample_length_le _ _ hs
      simp only [advanceLoop, emittedSamples]
      rw [ih (frameBody (step (n + 1)) s) hb, frameBody_samples,
        pushSample_eq_drop _ _ hs]
      rcases Nat.lt_or_ge s.samples.length 2000 with hlt | hge
      · rw [show s.samples.length + 1 - 2000 = 0 by omega, List.drop_zero]
        rw [show (s.samples ++
            [(⟨(step (n + 1) ⟨s.x, s.y⟩).x, (step (n + 1) ⟨s.x, s.y⟩).y,
              (step (n + 1) ⟨s.x, s.y⟩).accepted⟩ : Sample)]).length
            = s.samples.length + 1 by
          simp [List.length_append, List.length_singleton]]
        rw [List.append_assoc, List.singleton_append,
          show s.samples.length + 1 + n - 2000 = s.samples.length + (n + 1) - 2000
            by omega]
      · have h2000 : s.samples.length = 2000 := le_antisymm hs hge
        obtain ⟨b, l, hbl⟩ : ∃ b l, s.samples = b :: l := by
          cases hsam : s.samples with
          | nil => rw [hsam] at h2000; simp at h2000
          | cons b l => exact ⟨b, l, rfl⟩
        rw [hbl]
        rw [hbl] at h2000
        have hl : l.length = 1999 := by
          simp only [List.length_cons] at h2000
          omega
        rw [show (b :: l).length + 1 - 2000 = 1 by
          simp only [List.length_cons]; omega]
        rw [List.cons_append, List.drop_succ_cons, List.drop_zero]
        rw [show (l ++
            [(⟨(step (n + 1) ⟨s.x, s.y⟩).x, (step (n + 1) ⟨s.x, s.y⟩).y,
              (step (n + 1) ⟨s.x, s.y⟩).accepted⟩ : Sample)]).length + n - 2000
            = n by
          simp only [List.length_append, List.length_singleton]; omega]
        rw [show (b :: l).length + (n + 1) - 2000 = n + 1 by
          simp only [List.length_cons]; omega]
        rw [List.cons_append, List.drop_succ_cons, List.append_assoc,
          List.singleton_append]

theorem advanceLoop_length (step : ℕ → Point → KResult) (n : ℕ) (s : StateRef)
    (hs : s.samples.length ≤ 2000) :
    (advanceLoop step n s).samples.length ≤ 2000 := by
  rw [advanceLoop_samples step n s hs, List.length_drop]
  simp only [List.length_append, emittedSamples_length]
  omega

theorem advanceLoop_getLast (step : ℕ → Point → KResult) :
    ∀ (n : ℕ) (s : StateRef), 1 ≤ n →
      ∃ b : Bool, (advanceLoop step n s).samples.getLast?
        = some ⟨(advanceLoop step n s).x, (advanceLoop step n s).y, b⟩ := by
  intro n
  induction n with
  | zero => intro s h; exact absurd h (by norm_num)
  | succ n ih =>
      intro s _
      rcases Nat.eq_zero_or_pos n with h0 | hpos
      · subst h0
        refine ⟨(step (0 + 1) ⟨s.x, s.y⟩).accepted, ?_⟩
        simp only [advanceLoop]
        rw [frameBody_samples]
        exact pushSample_getLast _ _
      · simp only [advanceLoop]
        exact ih (frameBody (step (n + 1)) s) hpos

/-- C9: after any number of iterations of the stepping loop (any kernel,
any target, modelled by an arbitrary per-iteration step function), the
samples history stays within the 2000-entry bound, equals exactly the most
recent entries of the initial history followed by the emitted samples in
step order (oldest evicted first via the drop), and the current position
equals the coordinates of the last history entry. -/
theorem advance_history_invariant (step : ℕ → Point → KResult) (n : ℕ)
    (s : StateRef) (hcap : s.samples.length ≤ 2000) (hn : 1 ≤ n) :
    (advanceLoop step n s).samples.length ≤ 2000
    ∧ (advanceLoop step n s).samples
        = (s.samples ++ emittedSamples step n s).drop (s.samples.length + n - 2000)
    ∧ (emittedSamples step n s).length = n
    ∧ ∃ b : Bool, (advanceLoop step n s).samples.getLast?
        = some ⟨(advanceLoop step n s).x, (advanceLoop step n s).y, b⟩ :=
  ⟨advanceLoop_length step n s hcap, advanceLoop_samples step n s hcap,
   emittedSamples_length step n s, advanceLoop_getLast step n s hn⟩

/-- Witness for `advance_history_invariant` at a concrete input. -/
theorem advance_history_invariant_witness :
    (List.length ([] : List Sample) ≤ 2000 ∧ 1 ≤ 1)
    ∧ ((advanceLoop (fun _ _ => (⟨1, 2, true, none⟩ : KResult)) 1
          ⟨0, 0, [], none⟩).samples.length ≤ 2000
      ∧ (advanceLoop (fun _ _ => (⟨1, 2, true, none⟩ : KResult)) 1
          ⟨0, 0, [], none⟩).samples
          = (([] : List Sample)
              ++ emittedSamples (fun _ _ => (⟨1, 2, true, none⟩ : KResult)) 1
                  ⟨0, 0, [], none⟩).drop
              (List.length ([] : List Sample) + 1 - 2000)
      ∧ (emittedSamples (fun _ _ => (⟨1, 2, true, none⟩ : KResult)) 1
          ⟨0, 0, [], none⟩).length = 1
      ∧ ∃ b : Bool,
          (advanceLoop (fun _ _ => (⟨1, 2, true, none⟩ : KResult)) 1
            ⟨0, 0, [], none⟩).samples.getLast?
          = some ⟨(advanceLoop (fun _ _ => (⟨1, 2, true, none⟩ : KResult)) 1
                ⟨0, 0, [], none⟩).x,
              (advanceLoop (fun _ _ => (⟨1, 2, true, none⟩ : KResult)) 1
                ⟨0, 0, [], none⟩).y, b⟩) :=
  ⟨⟨by decide, le_refl 1⟩,
   advance_history_invariant (fun _ _ => (⟨1, 2, true, none⟩ : KResult)) 1
     ⟨0, 0, [], none⟩ (by decide) (le_refl 1)⟩

/-- C10: a non-positive `stepsPerFrame` makes the per-frame stepping loop a
no-op: no kernel invocation happens and the whole chain state (position,
samples history, `currentPath`) is returned unchanged. -/
theorem advance_nonpositive_noop (step : ℕ → Point → KResult) (spf : ℤ)
    (s : StateRef) (h : spf ≤ 0) : advanceFrame step spf s = s := by
  unfold advanceFrame
  rw [Int.toNat_of_nonpos h]
  rfl

/-- Witness for `advance_nonpositive_noop` at a concrete input. -/
theorem advance_nonpositive_noop_witness :
    (-1 : ℤ) ≤ 0
    ∧ advanceFrame (fun _ _ => (⟨0, 0, true, none⟩ : KResult)) (-1)
        ⟨0, 0, [], none⟩ = ⟨0, 0, [], none⟩ :=
  ⟨by decide, advance_nonpositive_noop _ (-1) _ (by decide)⟩

/-- C7 (amended): the gaussian, bimodal, and banana gradient functions
equal the exact analytic partial derivatives of the corresponding
log-densities at every point (for bimodal, of the log-density including its
`1e-9` guard, whose derivative the supplied gradient matches exactly); the
donut gradient is excluded, since it replaces `r` by `r + 1e-9` and so
differs from the exact derivative (see the counterexample). -/
theorem gradients_exact_amended (x y : ℝ) :
    HasDerivAt (fun t => LOG_PROBS TargetType.gaussian t y)
      (GRADIENTS TargetType.gaussian x y).dx x
    ∧ HasDerivAt (fun t => LOG_PROBS TargetType.gaussian x t)
      (GRADIENTS TargetType.gaussian x y).dy y
    ∧ HasDerivAt (fun t => LOG_PROBS TargetType.bimodal t y)
      (GRADIENTS TargetType.bimodal x y).dx x
    ∧ HasDerivAt (fun t => LOG_PROBS TargetType.bimodal x t)
      (GRADIENTS TargetType.bimodal x y).dy y
    ∧ HasDerivAt (fun t => LOG_PROBS TargetType.banana t y)
      (GRADIENTS TargetType.banana x y).dx x
    ∧ HasDerivAt (fun t => LOG_PROBS TargetType.banana x t)
      (GRADIENTS TargetType.banana x y).dy y := by
  refine ⟨?_, ?_, ?_, ?_, ?_, ?_⟩
  · simp only [LOG_PROBS, GRADIENTS]
    exact ((((hasDerivAt_id x).mul (hasDerivAt_id x)).add_const (y * y)).const_mul
      (-0.5)).congr_deriv (by simp only [id_eq]; ring)
  · simp only [LOG_PROBS, GRADIENTS]
    exact ((((hasDerivAt_id y).mul (hasDerivAt_id y)).const_add (x * x)).const_mul
      (-0.5)).congr_deriv (by simp only [id_eq]; ring)
  · simp only [LOG_PROBS, GRADIENTS]
    have hg1 : HasDerivAt (fun t : ℝ => (-((t + 1.5) ^ 2 + (y + 1.5) ^ 2)) * 2)
        (-(↑(2:ℕ) * (x + 1.5) ^ (2 - 1) * 1) * 2) x :=
      ((((hasDerivAt_id x).add_const (1.5 : ℝ)).pow 2).add_const
        ((y + 1.5) ^ 2)).neg.mul_const 2
    have hg2 : HasDerivAt (fun t : ℝ => (-((t - 1.5) ^ 2 + (y - 1.5) ^ 2)) * 2)
        (-(↑(2:ℕ) * (x - 1.5) ^ (2 - 1) * 1) * 2) x :=
      ((((hasDerivAt_id x).sub_const (1.5 : ℝ)).pow 2).add_const
        ((y - 1.5) ^ 2)).neg.mul_const 2
    have hpos : (0:ℝ) < Real.exp ((-((x + 1.5) ^ 2 + (y + 1.5) ^ 2)) * 2)
        + Real.exp ((-((x - 1.5) ^ 2 + (y - 1.5) ^ 2)) * 2) + 1e-9 := by positivity
    exact (((hg1.exp.add hg2.exp).add_const (1e-9 : ℝ)).log hpos.ne').congr_deriv
      (by push_cast; ring)
  · simp only [LOG_PROBS, GRADIENTS]
    have hg1 : HasDerivAt (fun t : ℝ => (-((x + 1.5) ^ 2 + (t + 1.5) ^ 2)) * 2)
        (-(↑(2:ℕ) * (y + 1.5) ^ (2 - 1) * 1) * 2) y :=
      ((((hasDerivAt_id y).add_const (1.5 : ℝ)).pow 2).const_add
        ((x + 1.5) ^ 2)).neg.mul_const 2
    have hg2 : HasDerivAt (fun t : ℝ => (-((x - 1.5) ^ 2 + (t - 1.5) ^ 2)) * 2)
        (-(↑(2:ℕ) * (y - 1.5) ^ (2 - 1) * 1) * 2) y :=
      ((((hasDerivAt_id y).sub_const (1.5 : ℝ)).pow 2).const_add
        ((x - 1.5) ^ 2)).neg.mul_const 2
    have hpos : (0:ℝ) < Real.exp ((-((x + 1.5) ^ 2 + (y + 1.5) ^ 2)) * 2)
        + Real.exp ((-((x - 1.5) ^ 2 + (y - 1.5) ^ 2)) * 2) + 1e-9 := by positivity
    exact (((hg1.exp.add hg2.exp).add_const (1e-9 : ℝ)).log hpos.ne').congr_deriv
      (by push_cast; ring)
  · simp only [LOG_PROBS, GRADIENTS]
    exact (((((hasDerivAt_id x).const_sub 1).pow 2).add
      (((((hasDerivAt_id x).mul (hasDerivAt_id x)).const_sub y).pow 2).const_mul
        5)).neg.div_const 10).congr_deriv (by simp only [id_eq]; push_cast; ring)
  · simp only [LOG_PROBS, GRADIENTS]
    exact (((((hasDerivAt_id y).sub_const (x * x)).pow 2).const_mul 5).const_add
      ((1 - x) ^ 2)).neg.div_const 10 |>.congr_deriv (by simp only [id_eq]; push_cast; ring)

/-- C7 counterexample: at `(3,4)` the supplied donut gradient is not the
derivative of the donut log-density in the first coordinate: the exact
derivative there is `-6`, while the code divides by `r + 1e-9` and uses
`r + 1e-9` inside the ring term, giving a slightly different value. -/
theorem donut_gradient_cex :
    ¬ HasDerivAt (fun t => LOG_PROBS TargetType.donut t 4)
      (GRADIENTS TargetType.donut 3 4).dx 3 := by
  intro hcontra
  have hsqrt : Real.sqrt ((3:ℝ) * 3 + 4 * 4) = 5 := by
    rw [show (3:ℝ) * 3 + 4 * 4 = 5 ^ 2 by norm_num]
    exact Real.sqrt_sq (by norm_num)
  have hq : HasDerivAt (fun t : ℝ => t * t + 4 * 4) (1 * 3 + 3 * 1) 3 :=
    ((hasDerivAt_id 3).mul (hasDerivAt_id 3)).add_const ((4:ℝ) * 4)
  have hs : HasDerivAt (fun t : ℝ => Real.sqrt (t * t + 4 * 4))
      ((1 * 3 + 3 * 1) / (2 * Real.sqrt ((3:ℝ) * 3 + 4 * 4))) 3 :=
    hq.sqrt (by norm_num)
  have hexact : HasDerivAt (fun t => LOG_PROBS TargetType.donut t 4) (-6 : ℝ) 3 := by
    simp only [LOG_PROBS]
    exact (((hs.sub_const 2.5).pow 2).const_mul (-2)).congr_deriv
      (by rw [hsqrt]; push_cast; norm_num)
  have huniq := hcontra.unique hexact
  simp only [GRADIENTS] at huniq
  rw [hsqrt] at huniq
  norm_num at huniq

theorem leapfrogFull_def (gradFn : ℝ → ℝ → Gradient) (eps : ℝ) (s : LFState) :
    leapfrogFull gradFn eps s =
      ⟨s.x + eps * s.px, s.y + eps * s.py,
       s.px + eps * (gradFn (s.x + eps * s.px) (s.y + eps * s.py)).dx,
       s.py + eps * (gradFn (s.x + eps * s.px) (s.y + eps * s.py)).dy⟩ := rfl

theorem hmcLoop_one (gradFn : ℝ → ℝ → Gradient) (eps : ℝ) (s : HState) :
    hmcLoop gradFn eps 1 s =
      ⟨s.x + eps * s.px, s.y + eps * s.py, s.px, s.py,
       s.traj ++ [⟨s.x + eps * s.px, s.y + eps * s.py⟩],
       (gradFn (s.x + eps * s.px) (s.y + eps * s.py)).dx,
       (gradFn (s.x + eps * s.px) (s.y + eps * s.py)).dy⟩ := rfl

theorem hmcLoop_succ_succ (gradFn : ℝ → ℝ → Gradient) (eps : ℝ) (n : ℕ)
    (s : HState) :
    hmcLoop gradFn eps (n + 1 + 1) s = hmcLoop gradFn eps (n + 1)
      ⟨s.x + eps * s.px, s.y + eps * s.py,
       s.px + eps * (gradFn (s.x + eps * s.px) (s.y + eps * s.py)).dx,
       s.py + eps * (gradFn (s.x + eps * s.px) (s.y + eps * s.py)).dy,
       s.traj ++ [⟨s.x + eps * s.px, s.y + eps * s.py⟩],
       (gradFn (s.x + eps * s.px) (s.y + eps * s.py)).dx,
       (gradFn (s.x + eps * s.px) (s.y + eps * s.py)).dy⟩ := rfl

theorem hmcLoop_spec (gradFn : ℝ → ℝ → Gradient) (eps : ℝ) :
    ∀ (n : ℕ), 1 ≤ n → ∀ (s : HState),
      (hmcLoop gradFn eps n s).traj
        = s.traj ++ (List.range n).map (fun i =>
            Point.mk ((leapfrogFull gradFn eps)^[i + 1] (quadOf s)).x
              ((leapfrogFull gradFn eps)^[i + 1] (quadOf s)).y)
      ∧ (hmcLoop gradFn eps n s).x = ((leapfrogFull gradFn eps)^[n] (quadOf s)).x
      ∧ (hmcLoop gradFn eps n s).y = ((leapfrogFull gradFn eps)^[n] (quadOf s)).y
      ∧ (hmcLoop gradFn eps n s).px
          = ((leapfrogFull gradFn eps)^[n - 1] (quadOf s)).px
      ∧ (hmcLoop gradFn eps n s).py
          = ((leapfrogFull gradFn eps)^[n - 1] (quadOf s)).py
      ∧ (hmcLoop gradFn eps n s).gdx
          = (gradFn ((leapfrogFull gradFn eps)^[n] (quadOf s)).x
              ((leapfrogFull gradFn eps)^[n] (quadOf s)).y).dx
      ∧ (hmcLoop gradFn eps n s).gdy
          = (gradFn ((leapfrogFull gradFn eps)^[n] (quadOf s)).x
              ((leapfrogFull gradFn eps)^[n] (quadOf s)).y).dy := by
  intro n hn
  induction n, hn using Nat.le_induction with
  | base =>
      intro s
      rw [hmcLoop_one]
      refine ⟨?_, rfl, rfl, rfl, rfl, rfl, rfl⟩
      simp only [List.range_succ, List.range_zero, List.nil_append, List.map_cons,
        List.map_nil, zero_add, Function.iterate_one, leapfrogFull_def, quadOf]
  | succ n hn ih =>
      intro s
      obtain ⟨m, rfl⟩ : ∃ m, n = m + 1 := ⟨n - 1, (Nat.succ_pred_eq_of_pos hn).symm⟩
      have hq : quadOf (⟨s.x + eps * s.px, s.y + eps * s.py,
          s.px + eps * (gradFn (s.x + eps * s.px) (s.y + eps * s.py)).dx,
          s.py + eps * (gradFn (s.x + eps * s.px) (s.y + eps * s.py)).dy,
          s.traj ++ [⟨s.x + eps * s.px, s.y + eps * s.py⟩],
          (gradFn (s.x + eps * s.px) (s.y + eps * s.py)).dx,
          (gradFn (s.x + eps * s.px) (s.y + eps * s.py)).dy⟩ : HState)
          = leapfrogFull gradFn eps (quadOf s) := rfl
      obtain ⟨ht, hx, hy, hpx, hpy, hgx, hgy⟩ := ih ⟨s.x + eps * s.px,
        s.y + eps * s.py,
        s.px + eps * (gradFn (s.x + eps * s.px) (s.y + eps * s.py)).dx,
        s.py + eps * (gradFn (s.x + eps * s.px) (s.y + eps * s.py)).dy,
        s.traj ++ [⟨s.x + eps * s.px, s.y + eps * s.py⟩],
        (gradFn (s.x + eps * s.px) (s.y + eps * s.py)).dx,
        (gradFn (s.x + eps * s.px) (s.y + eps * s.py)).dy⟩
      rw [hq] at ht hx hy hpx hpy hgx hgy
      simp only [Nat.add_sub_cancel] at hpx hpy ⊢
      refine ⟨?_, ?_, ?_, ?_, ?_, ?_, ?_⟩
      · rw [hmcLoop_succ_succ, ht]
        simp only [← Function.iterate_succ_apply]
        simp only [List.range_succ_eq_map, List.map_cons, List.map_map,
          Function.comp_def, Nat.succ_eq_add_one, zero_add, Function.iterate_one,
          leapfrogFull_def, quadOf, List.append_assoc, List.singleton_append,
          List.cons_append, List.nil_append]
      · rw [hmcLoop_succ_succ, hx, ← Function.iterate_succ_apply]
      · rw [hmcLoop_succ_succ, hy, ← Function.iterate_succ_apply]
      · rw [hmcLoop_succ_succ, hpx, ← Function.iterate_succ_apply]
      · rw [hmcLoop_succ_succ, hpy, ← Function.iterate_succ_apply]
      · rw [hmcLoop_succ_succ, hgx, ← Function.iterate_succ_apply]
      · rw [hmcLoop_succ_succ, hgy, ← Function.iterate_succ_apply]

theorem stepHMC_def (current : Point) (lpFn : ℝ → ℝ → ℝ)
    (gradFn : ℝ → ℝ → Gradient) (p : Params) (p1 p2 u : ℝ) :
    stepHMC current lpFn gradFn p p1 p2 u =
      if Real.log u < -(lpFn current.x current.y) + 0.5 * (p1 ^ 2 + p2 ^ 2)
      - (-(lpFn (hmcLoop gradFn p.hmcEpsilon p.hmcSteps ⟨current.x, current.y,
      p1 + 0.5 * p.hmcEpsilon * (gradFn current.x current.y).dx,
      p2 + 0.5 * p.hmcEpsilon * (gradFn current.x current.y).dy,
      [⟨current.x, current.y⟩],
      (gradFn current.x current.y).dx, (gradFn current.x current.y).dy⟩).x (hmcLoop gradFn p.hmcEpsilon p.hmcSteps ⟨current.x, current.y,
      p1 + 0.5 * p.hmcEpsilon * (gradFn current.x current.y).dx,
      p2 + 0.5 * p.hmcEpsilon * (gradFn current.x current.y).dy,
      [⟨current.x, current.y⟩],
      (gradFn current.x current.y).dx, (gradFn current.x current.y).dy⟩).y)
        + 0.5 * (((hmcLoop gradFn p.hmcEpsilon p.hmcSteps ⟨current.x, current.y,
      p1 + 0.5 * p.hmcEpsilon * (gradFn current.x current.y).dx,
      p2 + 0.5 * p.hmcEpsilon * (gradFn current.x current.y).dy,
      [⟨current.x, current.y⟩],
      (gradFn current.x current.y).dx, (gradFn current.x current.y).dy⟩).px + 0.5 * p.hmcEpsilon * (hmcLoop gradFn p.hmcEpsilon p.hmcSteps ⟨current.x, current.y,
      p1 + 0.5 * p.hmcEpsilon * (gradFn current.x current.y).dx,
      p2 + 0.5 * p.hmcEpsilon * (gradFn current.x current.y).dy,
      [⟨current.x, current.y⟩],
      (gradFn current.x current.y).dx, (gradFn current.x current.y).dy⟩).gdx) ^ 2
          + ((hmcLoop gradFn p.hmcEpsilon p.hmcSteps ⟨current.x, current.y,
      p1 + 0.5 * p.hmcEpsilon * (gradFn current.x current.y).dx,
      p2 + 0.5 * p.hmcEpsilon * (gradFn current.x current.y).dy,
      [⟨current.x, current.y⟩],
      (gradFn current.x current.y).dx, (gradFn current.x current.y).dy⟩).py + 0.5 * p.hmcEpsilon * (hmcLoop gradFn p.hmcEpsilon p.hmcSteps ⟨current.x, current.y,
      p1 + 0.5 * p.hmcEpsilon * (gradFn current.x current.y).dx,
      p2 + 0.5 * p.hmcEpsilon * (gradFn current.x current.y).dy,
      [⟨current.x, current.y⟩],
      (gradFn current.x current.y).dx, (gradFn current.x current.y).dy⟩).gdy) ^ 2))
      then ⟨(hmcLoop gradFn p.hmcEpsilon p.hmcSteps ⟨current.x, current.y,
      p1 + 0.5 * p.hmcEpsilon * (gradFn current.x current.y).dx,
      p2 + 0.5 * p.hmcEpsilon * (gradFn current.x current.y).dy,
      [⟨current.x, current.y⟩],
      (gradFn current.x current.y).dx, (gradFn current.x current.y).dy⟩).x, (hmcLoop gradFn p.hmcEpsilon p.hmcSteps ⟨current.x, current.y,
      p1 + 0.5 * p.hmcEpsilon * (gradFn current.x current.y).dx,
      p2 + 0.5 * p.hmcEpsilon * (gradFn current.x current.y).dy,
      [⟨current.x, current.y⟩],
      (gradFn current.x current.y).dx, (gradFn current.x current.y).dy⟩).y, true, some (hmcLoop gradFn p.hmcEpsilon p.hmcSteps ⟨current.x, current.y,
      p1 + 0.5 * p.hmcEpsilon * (gradFn current.x current.y).dx,
      p2 + 0.5 * p.hmcEpsilon * (gradFn current.x current.y).dy,
      [⟨current.x, current.y⟩],
      (gradFn current.x current.y).dx, (gradFn current.x current.y).dy⟩).traj⟩
      else ⟨current.x, current.y, false, some (hmcLoop gradFn p.hmcEpsilon p.hmcSteps ⟨current.x, current.y,
      p1 + 0.5 * p.hmcEpsilon * (gradFn current.x current.y).dx,
      p2 + 0.5 * p.hmcEpsilon * (gradFn current.x current.y).dy,
      [⟨current.x, current.y⟩],
      (gradFn current.x current.y).dx, (gradFn current.x current.y).dy⟩).traj⟩ := rfl

/-- C3: for `leapfrogSteps >= 1` and positive `leapfrogEpsilon`, the HMC
step records as `path` exactly the `L + 1` positions of the leapfrog
reference recursion (starting at the current point, whose `i`-th entry is
the position after `i` leapfrog position updates), accepts exactly when
`log u < H_start - H_end` with `H_start` computed from the drawn momentum
and `H_end` from the final leapfrog state after the closing half-step
momentum update at the final position, moves to the final leapfrog
position on acceptance, and returns the unchanged current position on
rejection (while still reporting the attempted trajectory as `path`). -/
theorem hmc_step_correct (current : Point) (lpFn : ℝ → ℝ → ℝ)
    (gradFn : ℝ → ℝ → Gradient) (p : Params) (p1 p2 u : ℝ)
    (hL : 1 ≤ p.hmcSteps) (he : 0 < p.hmcEpsilon) :
    (stepHMC current lpFn gradFn p p1 p2 u).path
      = some ((List.range (p.hmcSteps + 1)).map (fun i =>
          Point.mk (hmcRefPoint current gradFn p.hmcEpsilon p1 p2 i).x (hmcRefPoint current gradFn p.hmcEpsilon p1 p2 i).y))
    ∧ (hmcRefPoint current gradFn p.hmcEpsilon p1 p2 0).x = current.x
    ∧ (hmcRefPoint current gradFn p.hmcEpsilon p1 p2 0).y = current.y
    ∧ ((stepHMC current lpFn gradFn p p1 p2 u).accepted = true ↔
        Real.log u < -(lpFn current.x current.y) + 0.5 * (p1 ^ 2 + p2 ^ 2)
      - (-(lpFn (hmcRefPoint current gradFn p.hmcEpsilon p1 p2 p.hmcSteps).x (hmcRefPoint current gradFn p.hmcEpsilon p1 p2 p.hmcSteps).y)
        + 0.5 * (((hmcRefPoint current gradFn p.hmcEpsilon p1 p2 (p.hmcSteps - 1)).px
            + 0.5 * p.hmcEpsilon * (gradFn (hmcRefPoint current gradFn p.hmcEpsilon p1 p2 p.hmcSteps).x
              (hmcRefPoint current gradFn p.hmcEpsilon p1 p2 p.hmcSteps).y).dx) ^ 2
          + ((hmcRefPoint current gradFn p.hmcEpsilon p1 p2 (p.hmcSteps - 1)).py
            + 0.5 * p.hmcEpsilon * (gradFn (hmcRefPoint current gradFn p.hmcEpsilon p1 p2 p.hmcSteps).x
              (hmcRefPoint current gradFn p.hmcEpsilon p1 p2 p.hmcSteps).y).dy) ^ 2)))
    ∧ ((stepHMC current lpFn gradFn p p1 p2 u).accepted = true
        ∧ (stepHMC current lpFn gradFn p p1 p2 u).x = (hmcRefPoint current gradFn p.hmcEpsilon p1 p2 p.hmcSteps).x
        ∧ (stepHMC current lpFn gradFn p p1 p2 u).y = (hmcRefPoint current gradFn p.hmcEpsilon p1 p2 p.hmcSteps).y
      ∨ (stepHMC current lpFn gradFn p p1 p2 u).accepted = false
        ∧ (stepHMC current lpFn gradFn p p1 p2 u).x = current.x ∧ (stepHMC current lpFn gradFn p p1 p2 u).y = current.y) := by
  obtain ⟨ht, hx, hy, hpx, hpy, hgx, hgy⟩ :=
    hmcLoop_spec gradFn p.hmcEpsilon p.hmcSteps hL ⟨current.x, current.y,
      p1 + 0.5 * p.hmcEpsilon * (gradFn current.x current.y).dx,
      p2 + 0.5 * p.hmcEpsilon * (gradFn current.x current.y).dy,
      [⟨current.x, current.y⟩],
      (gradFn current.x current.y).dx, (gradFn current.x current.y).dy⟩
  have hq0 : quadOf ⟨current.x, current.y,
      p1 + 0.5 * p.hmcEpsilon * (gradFn current.x current.y).dx,
      p2 + 0.5 * p.hmcEpsilon * (gradFn current.x current.y).dy,
      [⟨current.x, current.y⟩],
      (gradFn current.x current.y).dx, (gradFn current.x current.y).dy⟩
      = hmcInit current gradFn p.hmcEpsilon p1 p2 := rfl
  rw [hq0] at ht hx hy hpx hpy hgx hgy
  have hrp : ∀ i : ℕ, (leapfrogFull gradFn p.hmcEpsilon)^[i]
      (hmcInit current gradFn p.hmcEpsilon p1 p2)
      = hmcRefPoint current gradFn p.hmcEpsilon p1 p2 i := fun i => rfl
  simp only [hrp] at ht hx hy hpx hpy hgx hgy
  have h0x : (hmcRefPoint current gradFn p.hmcEpsilon p1 p2 0).x = current.x := rfl
  have h0y : (hmcRefPoint current gradFn p.hmcEpsilon p1 p2 0).y = current.y := rfl
  refine ⟨?_, h0x, h0y, ?_, ?_⟩
  · have hpath : (stepHMC current lpFn gradFn p p1 p2 u).path = some (hmcLoop gradFn p.hmcEpsilon p.hmcSteps ⟨current.x, current.y,
      p1 + 0.5 * p.hmcEpsilon * (gradFn current.x current.y).dx,
      p2 + 0.5 * p.hmcEpsilon * (gradFn current.x current.y).dy,
      [⟨current.x, current.y⟩],
      (gradFn current.x current.y).dx, (gradFn current.x current.y).dy⟩).traj := by
      rw [stepHMC_def, apply_ite KResult.path, ite_self]
    rw [hpath, ht, List.range_succ_eq_map]
    simp only [List.map_cons, List.map_map, Function.comp_def,
      Nat.succ_eq_add_one, List.singleton_append, h0x, h0y]
  · have hacc : (stepHMC current lpFn gradFn p p1 p2 u).accepted = true ↔
        (Real.log u < -(lpFn current.x current.y) + 0.5 * (p1 ^ 2 + p2 ^ 2)
      - (-(lpFn (hmcLoop gradFn p.hmcEpsilon p.hmcSteps ⟨current.x, current.y,
      p1 + 0.5 * p.hmcEpsilon * (gradFn current.x current.y).dx,
      p2 + 0.5 * p.hmcEpsilon * (gradFn current.x current.y).dy,
      [⟨current.x, current.y⟩],
      (gradFn current.x current.y).dx, (gradFn current.x current.y).dy⟩).x (hmcLoop gradFn p.hmcEpsilon p.hmcSteps ⟨current.x, current.y,
      p1 + 0.5 * p.hmcEpsilon * (gradFn current.x current.y).dx,
      p2 + 0.5 * p.hmcEpsilon * (gradFn current.x current.y).dy,
      [⟨current.x, current.y⟩],
      (gradFn current.x current.y).dx, (gradFn current.x current.y).dy⟩).y)
        + 0.5 * (((hmcLoop gradFn p.hmcEpsilon p.hmcSteps ⟨current.x, current.y,
      p1 + 0.5 * p.hmcEpsilon * (gradFn current.x current.y).dx,
      p2 + 0.5 * p.hmcEpsilon * (gradFn current.x current.y).dy,
      [⟨current.x, current.y⟩],
      (gradFn current.x current.y).dx, (gradFn current.x current.y).dy⟩).px + 0.5 * p.hmcEpsilon * (hmcLoop gradFn p.hmcEpsilon p.hmcSteps ⟨current.x, current.y,
      p1 + 0.5 * p.hmcEpsilon * (gradFn current.x current.y).dx,
      p2 + 0.5 * p.hmcEpsilon * (gradFn current.x current.y).dy,
      [⟨current.x, current.y⟩],
      (gradFn current.x current.y).dx, (gradFn current.x current.y).dy⟩).gdx) ^ 2
          + ((hmcLoop gradFn p.hmcEpsilon p.hmcSteps ⟨current.x, current.y,
      p1 + 0.5 * p.hmcEpsilon * (gradFn current.x current.y).dx,
      p2 + 0.5 * p.hmcEpsilon * (gradFn current.x current.y).dy,
      [⟨current.x, current.y⟩],
      (gradFn current.x current.y).dx, (gradFn current.x current.y).dy⟩).py + 0.5 * p.hmcEpsilon * (hmcLoop gradFn p.hmcEpsilon p.hmcSteps ⟨current.x, current.y,
      p1 + 0.5 * p.hmcEpsilon * (gradFn current.x current.y).dx,
      p2 + 0.5 * p.hmcEpsilon * (gradFn current.x current.y).dy,
      [⟨current.x, current.y⟩],
      (gradFn current.x current.y).dx, (gradFn current.x current.y).dy⟩).gdy) ^ 2))) := by
      rw [stepHMC_def, apply_ite KResult.accepted]
      by_cases hcond : Real.log u < -(lpFn current.x current.y) + 0.5 * (p1 ^ 2 + p2 ^ 2)
      - (-(lpFn (hmcLoop gradFn p.hmcEpsilon p.hmcSteps ⟨current.x, current.y,
      p1 + 0.5 * p.hmcEpsilon * (gradFn current.x current.y).dx,
      p2 + 0.5 * p.hmcEpsilon * (gradFn current.x current.y).dy,
      [⟨current.x, current.y⟩],
      (gradFn current.x current.y).dx, (gradFn current.x current.y).dy⟩).x (hmcLoop gradFn p.hmcEpsilon p.hmcSteps ⟨current.x, current.y,
      p1 + 0.5 * p.hmcEpsilon * (gradFn current.x current.y).dx,
      p2 + 0.5 * p.hmcEpsilon * (gradFn current.x current.y).dy,
      [⟨current.x, current.y⟩],
      (gradFn current.x current.y).dx, (gradFn current.x current.y).dy⟩).y)
        + 0.5 * (((hmcLoop gradFn p.hmcEpsilon p.hmcSteps ⟨current.x, current.y,
      p1 + 0.5 * p.hmcEpsilon * (gradFn current.x current.y).dx,
      p2 + 0.5 * p.hmcEpsilon * (gradFn current.x current.y).dy,
      [⟨current.x, current.y⟩],
      (gradFn current.x current.y).dx, (gradFn current.x current.y).dy⟩).px + 0.5 * p.hmcEpsilon * (hmcLoop gradFn p.hmcEpsilon p.hmcSteps ⟨current.x, current.y,
      p1 + 0.5 * p.hmcEpsilon * (gradFn current.x current.y).dx,
      p2 + 0.5 * p.hmcEpsilon * (gradFn current.x current.y).dy,
      [⟨current.x, current.y⟩],
      (gradFn current.x current.y).dx, (gradFn current.x current.y).dy⟩).gdx) ^ 2
          + ((hmcLoop gradFn p.hmcEpsilon p.hmcSteps ⟨current.x, current.y,
      p1 + 0.5 * p.hmcEpsilon * (gradFn current.x current.y).dx,
      p2 + 0.5 * p.hmcEpsilon * (gradFn current.x current.y).dy,
      [⟨current.x, current.y⟩],
      (gradFn current.x current.y).dx, (gradFn current.x current.y).dy⟩).py + 0.5 * p.hmcEpsilon * (hmcLoop gradFn p.hmcEpsilon p.hmcSteps ⟨current.x, current.y,
      p1 + 0.5 * p.hmcEpsilon * (gradFn current.x current.y).dx,
      p2 + 0.5 * p.hmcEpsilon * (gradFn current.x current.y).dy,
      [⟨current.x, current.y⟩],
      (gradFn current.x current.y).dx, (gradFn current.x current.y).dy⟩).gdy) ^ 2))
      · simp [hcond]
      · simp [hcond]
    rw [hacc, hx, hy, hpx, hpy, hgx, hgy]
  · by_cases hcond : Real.log u < -(lpFn current.x current.y) + 0.5 * (p1 ^ 2 + p2 ^ 2)
      - (-(lpFn (hmcLoop gradFn p.hmcEpsilon p.hmcSteps ⟨current.x, current.y,
      p1 + 0.5 * p.hmcEpsilon * (gradFn current.x current.y).dx,
      p2 + 0.5 * p.hmcEpsilon * (gradFn current.x current.y).dy,
      [⟨current.x, current.y⟩],
      (gradFn current.x current.y).dx, (gradFn current.x current.y).dy⟩).x (hmcLoop gradFn p.hmcEpsilon p.hmcSteps ⟨current.x, current.y,
      p1 + 0.5 * p.hmcEpsilon * (gradFn current.x current.y).dx,
      p2 + 0.5 * p.hmcEpsilon * (gradFn current.x current.y).dy,
      [⟨current.x, current.y⟩],
      (gradFn current.x current.y).dx, (gradFn current.x current.y).dy⟩).y)
        + 0.5 * (((hmcLoop gradFn p.hmcEpsilon p.hmcSteps ⟨current.x, current.y,
      p1 + 0.5 * p.hmcEpsilon * (gradFn current.x current.y).dx,
      p2 + 0.5 * p.hmcEpsilon * (gradFn current.x current.y).dy,
      [⟨current.x, current.y⟩],
      (gradFn current.x current.y).dx, (gradFn current.x current.y).dy⟩).px + 0.5 * p.hmcEpsilon * (hmcLoop gradFn p.hmcEpsilon p.hmcSteps ⟨current.x, current.y,
      p1 + 0.5 * p.hmcEpsilon * (gradFn current.x current.y).dx,
      p2 + 0.5 * p.hmcEpsilon * (gradFn current.x current.y).dy,
      [⟨current.x, current.y⟩],
      (gradFn current.x current.y).dx, (gradFn current.x current.y).dy⟩).gdx) ^ 2
          + ((hmcLoop gradFn p.hmcEpsilon p.hmcSteps ⟨current.x, current.y,
      p1 + 0.5 * p.hmcEpsilon * (gradFn current.x current.y).dx,
      p2 + 0.5 * p.hmcEpsilon * (gradFn current.x current.y).dy,
      [⟨current.x, current.y⟩],
      (gradFn current.x current.y).dx, (gradFn current.x current.y).dy⟩).py + 0.5 * p.hmcEpsilon * (hmcLoop gradFn p.hmcEpsilon p.hmcSteps ⟨current.x, current.y,
      p1 + 0.5 * p.hmcEpsilon * (gradFn current.x current.y).dx,
      p2 + 0.5 * p.hmcEpsilon * (gradFn current.x current.y).dy,
      [⟨current.x, current.y⟩],
      (gradFn current.x current.y).dx, (gradFn current.x current.y).dy⟩).gdy) ^ 2))
    · left
      have hxx : (stepHMC current lpFn gradFn p p1 p2 u).x = (hmcLoop gradFn p.hmcEpsilon p.hmcSteps ⟨current.x, current.y,
      p1 + 0.5 * p.hmcEpsilon * (gradFn current.x current.y).dx,
      p2 + 0.5 * p.hmcEpsilon * (gradFn current.x current.y).dy,
      [⟨current.x, current.y⟩],
      (gradFn current.x current.y).dx, (gradFn current.x current.y).dy⟩).x := by
        rw [stepHMC_def, if_pos hcond]
      have hyy : (stepHMC current lpFn gradFn p p1 p2 u).y = (hmcLoop gradFn p.hmcEpsilon p.hmcSteps ⟨current.x, current.y,
      p1 + 0.5 * p.hmcEpsilon * (gradFn current.x current.y).dx,
      p2 + 0.5 * p.hmcEpsilon * (gradFn current.x current.y).dy,
      [⟨current.x, current.y⟩],
      (gradFn current.x current.y).dx, (gradFn current.x current.y).dy⟩).y := by
        rw [stepHMC_def, if_pos hcond]
      have haa : (stepHMC current lpFn gradFn p p1 p2 u).accepted = true := by
        rw [stepHMC_def, if_pos hcond]
      exact ⟨haa, hxx.trans hx, hyy.trans hy⟩
    · right
      have hxx : (stepHMC current lpFn gradFn p p1 p2 u).x = current.x := by
        rw [stepHMC_def, if_neg hcond]
      have hyy : (stepHMC current lpFn gradFn p p1 p2 u).y = current.y := by
        rw [stepHMC_def, if_neg hcond]
      have haa : (stepHMC current lpFn gradFn p p1 p2 u).accepted = false := by
        rw [stepHMC_def, if_neg hcond]
      exact ⟨haa, hxx, hyy⟩

/-- Witness for `hmc_step_correct` at a concrete input. -/
theorem hmc_step_correct_witness :
    (1 ≤ (1:ℕ) ∧ (0:ℝ) < 1)
    ∧ ((stepHMC ⟨0, 0⟩ (fun _ _ => 0) (fun _ _ => ⟨0, 0⟩) ⟨1, 1, 1, 1⟩ 0 0 1).path
        = some ((List.range (1 + 1)).map (fun i =>
            Point.mk (hmcRefPoint ⟨0, 0⟩ (fun _ _ => ⟨0, 0⟩) 1 0 0 i).x (hmcRefPoint ⟨0, 0⟩ (fun _ _ => ⟨0, 0⟩) 1 0 0 i).y))
      ∧ (hmcRefPoint ⟨0, 0⟩ (fun _ _ => ⟨0, 0⟩) 1 0 0 0).x = 0
      ∧ (hmcRefPoint ⟨0, 0⟩ (fun _ _ => ⟨0, 0⟩) 1 0 0 0).y = 0
      ∧ ((stepHMC ⟨0, 0⟩ (fun _ _ => 0) (fun _ _ => ⟨0, 0⟩) ⟨1, 1, 1, 1⟩ 0 0 1).accepted = true ↔
          Real.log 1 < -(0:ℝ) + 0.5 * ((0:ℝ) ^ 2 + (0:ℝ) ^ 2)
            - (-(0:ℝ) + 0.5 * (((hmcRefPoint ⟨0, 0⟩ (fun _ _ => ⟨0, 0⟩) 1 0 0 0).px + 0.5 * 1 * 0) ^ 2
              + ((hmcRefPoint ⟨0, 0⟩ (fun _ _ => ⟨0, 0⟩) 1 0 0 0).py + 0.5 * 1 * 0) ^ 2)))
      ∧ ((stepHMC ⟨0, 0⟩ (fun _ _ => 0) (fun _ _ => ⟨0, 0⟩) ⟨1, 1, 1, 1⟩ 0 0 1).accepted = true
          ∧ (stepHMC ⟨0, 0⟩ (fun _ _ => 0) (fun _ _ => ⟨0, 0⟩) ⟨1, 1, 1, 1⟩ 0 0 1).x = (hmcRefPoint ⟨0, 0⟩ (fun _ _ => ⟨0, 0⟩) 1 0 0 1).x
          ∧ (stepHMC ⟨0, 0⟩ (fun _ _ => 0) (fun _ _ => ⟨0, 0⟩) ⟨1, 1, 1, 1⟩ 0 0 1).y = (hmcRefPoint ⟨0, 0⟩ (fun _ _ => ⟨0, 0⟩) 1 0 0 1).y
        ∨ (stepHMC ⟨0, 0⟩ (fun _ _ => 0) (fun _ _ => ⟨0, 0⟩) ⟨1, 1, 1, 1⟩ 0 0 1).accepted = false
          ∧ (stepHMC ⟨0, 0⟩ (fun _ _ => 0) (fun _ _ => ⟨0, 0⟩) ⟨1, 1, 1, 1⟩ 0 0 1).x = 0 ∧ (stepHMC ⟨0, 0⟩ (fun _ _ => 0) (fun _ _ => ⟨0, 0⟩) ⟨1, 1, 1, 1⟩ 0 0 1).y = 0)) :=
  ⟨⟨le_refl 1, one_pos⟩,
   hmc_step_correct ⟨0, 0⟩ (fun _ _ => 0) (fun _ _ => ⟨0, 0⟩) ⟨1, 1, 1, 1⟩ 0 0 1
     (le_refl 1) one_pos⟩
